import Mathlib

/-!
Verification of the `sum_concil.py` reconciliation pipeline of the
Coldview_Stuff repository.  Each Python stage is embedded shallowly: pandas
tables become lists of records, the float amounts become exact rationals, and
the stages become pure functions on those lists.  Amount parsing models
pandas `to_numeric` on the cleaned digit strings as exact decimal rationals.
-/

namespace SumConcil

/-! ## String helpers

Python string primitives used by `sum_concil.py` (`str.lower`, `str.strip`,
`str.upper`, substring containment) are modelled over the character list of a
`String`. -/

/-- Model of Python `str.lower()` (ASCII case folding suffices for the
filenames and flags the pipeline handles). -/
def lowerStr (s : String) : String := String.mk (s.data.map Char.toLower)

/-- Model of Python `str.upper()`. -/
def upperStr (s : String) : String := String.mk (s.data.map Char.toUpper)

/-- Strip leading whitespace characters. -/
def dropWs (l : List Char) : List Char := l.dropWhile Char.isWhitespace

/-- Model of Python `str.strip()`: drop whitespace from both ends. -/
def stripStr (s : String) : String :=
  String.mk ((dropWs (dropWs s.data).reverse).reverse)

/-- Executable check that `n` is a leading segment of `h`. -/
def startsWithChars : List Char → List Char → Bool
  | [], _ => true
  | _ :: _, [] => false
  | a :: as, b :: bs => a == b && startsWithChars as bs

/-- Executable substring containment, modelling Python `needle in hay`. -/
def hasSub (n : List Char) : List Char → Bool
  | [] => startsWithChars n []
  | c :: cs => startsWithChars n (c :: cs) || hasSub n cs

/-- Executable check that `n` is a trailing segment of `h`. -/
def endsWithChars (n h : List Char) : Bool := startsWithChars n.reverse h.reverse

theorem startsWithChars_iff (n h : List Char) :
    startsWithChars n h = true ↔ n <+: h := by
  induction n generalizing h with
  | nil => simp [startsWithChars]
  | cons a as ih =>
    cases h with
    | nil => simp [startsWithChars]
    | cons b bs =>
      simp only [startsWithChars, Bool.and_eq_true, beq_iff_eq, ih,
        List.cons_prefix_cons]

theorem hasSub_iff (n h : List Char) : hasSub n h = true ↔ n <:+: h := by
  induction h with
  | nil =>
    simp only [hasSub, startsWithChars_iff, List.prefix_nil, List.infix_nil]
  | cons c cs ih =>
    simp only [hasSub, Bool.or_eq_true, startsWithChars_iff, ih]
    constructor
    · rintro (hp | hi)
      · exact hp.isInfix
      · exact hi.trans (List.infix_cons (List.infix_refl cs))
    · intro hi
      rcases List.infix_cons_iff.mp hi with hp | hi
      · exact Or.inl hp
      · exact Or.inr hi

/-! ## Filename standardization (`get_standardized_name`)

The Python helper lower-cases the filename, extracts the first date-looking
substring with `re.search(r'(\d+[\.-]\d+[\.-]\d+)', name_lower)` and builds
the standardized reference.  The regex search is modelled by an explicit
scanner: since `[.-]` never matches a digit, the greedy `\d+` pieces are
exactly maximal digit runs and the search is deterministic.  The Python
function first applies `os.path.basename`; the embedding takes the basename
as its input, path splitting being I/O glue. -/

/-- Characters accepted by the `[.-]` separator class of the date regex. -/
def sepChar (c : Char) : Bool := c == '.' || c == '-'

/-- Attempt to match `\d+[.-]\d+[.-]\d+` at the head of `l`, greedily. -/
def matchDateAt (l : List Char) : Option (List Char) :=
  let a := l.takeWhile Char.isDigit
  if a.isEmpty then none else
  match l.dropWhile Char.isDigit with
  | [] => none
  | s₁ :: r₁ =>
    if sepChar s₁ then
      let b := r₁.takeWhile Char.isDigit
      if b.isEmpty then none else
      match r₁.dropWhile Char.isDigit with
      | [] => none
      | s₂ :: r₂ =>
        if sepChar s₂ then
          let c := r₂.takeWhile Char.isDigit
          if c.isEmpty then none else
          some (a ++ s₁ :: b ++ s₂ :: c)
        else none
    else none

/-- Leftmost search for the date pattern, modelling `re.search`. -/
def searchDate : List Char → Option (List Char)
  | [] => none
  | c :: cs =>
    match matchDateAt (c :: cs) with
    | some d => some d
    | none => searchDate cs

/-- Declarative reading of the date regex: three nonempty digit runs joined
by two separator characters. -/
def IsDateTok (l : List Char) : Prop :=
  ∃ a s₁ b s₂ c, l = a ++ s₁ :: b ++ s₂ :: c ∧
    a ≠ [] ∧ b ≠ [] ∧ c ≠ [] ∧
    (∀ x ∈ a, x.isDigit) ∧ (∀ x ∈ b, x.isDigit) ∧ (∀ x ∈ c, x.isDigit) ∧
    sepChar s₁ = true ∧ sepChar s₂ = true

theorem sepChar_not_digit {c : Char} (h : sepChar c = true) : c.isDigit = false := by
  rcases Bool.or_eq_true_iff.mp h with h' | h' <;> rw [beq_iff_eq] at h' <;>
    subst h' <;> decide

theorem takeWhile_all_prepend {p : Char → Bool} (a t : List Char)
    (ha : ∀ y ∈ a, p y = true) :
    (a ++ t).takeWhile p = a ++ t.takeWhile p := by
  induction a with
  | nil => simp
  | cons y ys ih =>
    have hy := ha y (by simp)
    simp [List.takeWhile_cons, hy, ih fun z hz => ha z (by simp [hz])]

theorem split_at_stop {p : Char → Bool} (a : List Char) (x : Char) (r : List Char)
    (ha : ∀ y ∈ a, p y = true) (hx : p x = false) :
    (a ++ x :: r).takeWhile p = a ∧ (a ++ x :: r).dropWhile p = x :: r := by
  induction a with
  | nil => simp [List.takeWhile_cons, List.dropWhile_cons, hx]
  | cons y ys ih =>
    have hy := ha y (by simp)
    have h' := ih fun z hz => ha z (by simp [hz])
    simp [List.takeWhile_cons, List.dropWhile_cons, hy, h'.1, h'.2]

theorem matchDateAt_some {l d : List Char} (h : matchDateAt l = some d) :
    IsDateTok d ∧ d <+: l := by
  unfold matchDateAt at h
  rcases hT : l.takeWhile Char.isDigit with _ | ⟨x, xs⟩
  · rw [hT] at h; simp at h
  · rcases hD : l.dropWhile Char.isDigit with _ | ⟨s₁, r₁⟩
    · rw [hT, hD] at h; simp at h
    · rw [hT, hD] at h
      simp only [List.isEmpty_cons] at h
      by_cases hs₁ : sepChar s₁ = true
      · rw [if_pos hs₁] at h
        rcases hT₁ : r₁.takeWhile Char.isDigit with _ | ⟨y, ys⟩
        · rw [hT₁] at h; simp at h
        · rcases hD₁ : r₁.dropWhile Char.isDigit with _ | ⟨s₂, r₂⟩
          · rw [hT₁, hD₁] at h; simp at h
          · rw [hT₁, hD₁] at h
            simp only [List.isEmpty_cons] at h
            by_cases hs₂ : sepChar s₂ = true
            · rw [if_pos hs₂] at h
              rcases hT₂ : r₂.takeWhile Char.isDigit with _ | ⟨z, zs⟩
              · rw [hT₂] at h; simp at h
              · rw [hT₂] at h
                simp only [List.isEmpty_cons, if_false, Bool.false_eq_true,
                  Option.some.injEq] at h
                subst h
                constructor
                · refine ⟨x :: xs, s₁, y :: ys, s₂, z :: zs, rfl, by simp, by simp,
                    by simp, ?_, ?_, ?_, hs₁, hs₂⟩
                  · intro w hw; rw [← hT] at hw; exact List.mem_takeWhile_imp hw
                  · intro w hw; rw [← hT₁] at hw; exact List.mem_takeWhile_imp hw
                  · intro w hw; rw [← hT₂] at hw; exact List.mem_takeWhile_imp hw
                · have hl : l = (x :: xs) ++ s₁ :: r₁ := by
                    rw [← hT, ← hD, List.takeWhile_append_dropWhile]
                  have hr₁ : r₁ = (y :: ys) ++ s₂ :: r₂ := by
                    rw [← hT₁, ← hD₁, List.takeWhile_append_dropWhile]
                  have hr₂ : r₂ = (z :: zs) ++ r₂.dropWhile Char.isDigit := by
                    rw [← hT₂, List.takeWhile_append_dropWhile]
                  refine ⟨r₂.dropWhile Char.isDigit, ?_⟩
                  rw [hl, hr₁]
                  conv_rhs => rw [hr₂]
                  simp
            · rw [if_neg hs₂] at h; simp at h
      · rw [if_neg hs₁] at h; simp at h

theorem matchDateAt_isSome_of {l d : List Char} (hd : IsDateTok d) (hp : d <+: l) :
    (matchDateAt l).isSome = true := by
  obtain ⟨a, s₁, b, s₂, c, hdd, ha, hb, hc, hda, hdb, hdc, hs₁, hs₂⟩ := hd
  obtain ⟨t, ht⟩ := hp
  subst hdd
  have hl : l = a ++ s₁ :: (b ++ s₂ :: (c ++ t)) := by
    rw [← ht]; simp
  have h₁ := split_at_stop (p := Char.isDigit) a s₁ (b ++ s₂ :: (c ++ t)) hda
    (sepChar_not_digit hs₁)
  have h₂ := split_at_stop (p := Char.isDigit) b s₂ (c ++ t) hdb
    (sepChar_not_digit hs₂)
  have h₃ : (c ++ t).takeWhile Char.isDigit = c ++ t.takeWhile Char.isDigit :=
    takeWhile_all_prepend c t hdc
  rcases a with _ | ⟨x, xs⟩; · exact absurd rfl ha
  rcases b with _ | ⟨y, ys⟩; · exact absurd rfl hb
  rcases c with _ | ⟨z, zs⟩; · exact absurd rfl hc
  rw [hl]
  unfold matchDateAt
  simp only [h₁.1, h₁.2, List.isEmpty_cons, Bool.false_eq_true, if_false]
  rw [if_pos hs₁]
  simp only [h₂.1, h₂.2, List.isEmpty_cons, Bool.false_eq_true, if_false]
  rw [if_pos hs₂]
  simp only [h₃, List.cons_append, List.isEmpty_cons, Bool.false_eq_true, if_false]
  simp
  exact hdc z (by simp)

theorem searchDate_some {l d : List Char} (h : searchDate l = some d) :
    IsDateTok d ∧ d <:+: l := by
  induction l with
  | nil => simp [searchDate] at h
  | cons c cs ih =>
    unfold searchDate at h
    rcases hm : matchDateAt (c :: cs) with _ | e
    · rw [hm] at h
      obtain ⟨h₁, h₂⟩ := ih h
      exact ⟨h₁, h₂.trans (List.infix_cons (List.infix_refl cs))⟩
    · rw [hm] at h
      obtain rfl : e = d := by simpa using h
      obtain ⟨h₁, h₂⟩ := matchDateAt_some hm
      exact ⟨h₁, h₂.isInfix⟩

theorem searchDate_isSome_of {l d : List Char} (hd : IsDateTok d) (hi : d <:+: l) :
    (searchDate l).isSome = true := by
  induction l with
  | nil =>
    rw [List.infix_nil] at hi
    obtain ⟨a, s₁, b, s₂, c, hdd, ha, _⟩ := hd
    subst hi
    exact absurd (List.append_eq_nil.mp ((List.append_eq_nil.mp hdd.symm).1)).1 ha
  | cons c cs ih =>
    unfold searchDate
    rcases hm : matchDateAt (c :: cs) with _ | e
    · rcases List.infix_cons_iff.mp hi with hp | hi'
      · have := matchDateAt_isSome_of hd hp
        rw [hm] at this; simp at this
      · simpa using ih hi'
    · simp

/-- Date component of the standardized name: the first regex match on the
lowered filename, or the `"NO_DATE"` sentinel. -/
def dateStrOf (nameLower : String) : String :=
  match searchDate nameLower.data with
  | some d => String.mk d
  | none => "NO_DATE"

/-- Embedding of `get_standardized_name` from `sum_concil.py`. -/
def get_standardized_name (filename : String) : String :=
  let nameLower := lowerStr filename
  let dateStr := dateStrOf nameLower
  if hasSub ("m2d-recu").data nameLower.data then "M2D-RECU " ++ dateStr
  else if hasSub ("m6d-dev").data nameLower.data then "M6D-DEV " ++ dateStr
  else "UNKNOWN " ++ filename

theorem data_append (s t : String) : (s ++ t).data = s.data ++ t.data := by
  cases s; cases t; rfl

/-- C8: the derived source_ref lowercases the filename, extracts a date
substring matching `\d+[.-]\d+[.-]\d+` (the `"NO_DATE"` sentinel when no
substring matches), and prefixes `"M2D-RECU"`, `"M6D-DEV"` or
`"UNKNOWN <filename>"` according to which keyword the lowered name
contains, `m2d-recu` being tested first. -/
theorem c8_standardized_name_shape (filename : String) :
    ((∃ t, IsDateTok t ∧ t <:+: (lowerStr filename).data) →
      IsDateTok (dateStrOf (lowerStr filename)).data ∧
      (dateStrOf (lowerStr filename)).data <:+: (lowerStr filename).data) ∧
    ((¬ ∃ t, IsDateTok t ∧ t <:+: (lowerStr filename).data) →
      dateStrOf (lowerStr filename) = "NO_DATE") ∧
    (("m2d-recu").data <:+: (lowerStr filename).data →
      get_standardized_name filename = "M2D-RECU " ++ dateStrOf (lowerStr filename)) ∧
    (¬ ("m2d-recu").data <:+: (lowerStr filename).data →
      ("m6d-dev").data <:+: (lowerStr filename).data →
      get_standardized_name filename = "M6D-DEV " ++ dateStrOf (lowerStr filename)) ∧
    (¬ ("m2d-recu").data <:+: (lowerStr filename).data →
      ¬ ("m6d-dev").data <:+: (lowerStr filename).data →
      get_standardized_name filename = "UNKNOWN " ++ filename) := by
  refine ⟨?_, ?_, ?_, ?_, ?_⟩
  · rintro ⟨t, ht, hi⟩
    have hs : (searchDate (lowerStr filename).data).isSome = true :=
      searchDate_isSome_of ht hi
    rcases hd : searchDate (lowerStr filename).data with _ | d
    · rw [hd] at hs; simp at hs
    · obtain ⟨h₁, h₂⟩ := searchDate_some hd
      simpa [dateStrOf, hd] using ⟨h₁, h₂⟩
  · intro hno
    rcases hd : searchDate (lowerStr filename).data with _ | d
    · simp [dateStrOf, hd]
    · obtain ⟨h₁, h₂⟩ := searchDate_some hd
      exact absurd ⟨d, h₁, h₂⟩ hno
  · intro h2
    rw [get_standardized_name, if_pos ((hasSub_iff _ _).mpr h2)]
  · intro h2 h6
    rw [get_standardized_name]
    rw [if_neg (fun hc => h2 ((hasSub_iff _ _).mp hc)),
      if_pos ((hasSub_iff _ _).mpr h6)]
  · intro h2 h6
    rw [get_standardized_name]
    rw [if_neg (fun hc => h2 ((hasSub_iff _ _).mp hc)),
      if_neg (fun hc => h6 ((hasSub_iff _ _).mp hc))]

theorem c8_standardized_name_shape_witness :
    (IsDateTok (dateStrOf (lowerStr "m2d-recu 01.02.2023.xlsx")).data ∧
      (dateStrOf (lowerStr "m2d-recu 01.02.2023.xlsx")).data <:+:
        (lowerStr "m2d-recu 01.02.2023.xlsx").data) ∧
    get_standardized_name "m2d-recu 01.02.2023.xlsx" =
      "M2D-RECU " ++ dateStrOf (lowerStr "m2d-recu 01.02.2023.xlsx") := by
  have h := c8_standardized_name_shape "m2d-recu 01.02.2023.xlsx"
  refine ⟨h.1 ⟨['0','1','.','0','2','.','2','0','2','3'], ?_, by decide⟩,
    h.2.2.1 (by decide)⟩
  exact ⟨['0','1'], '.', ['0','2'], '.', ['2','0','2','3'], by decide, by decide,
    by decide, by decide, by decide, by decide, by decide, by decide, by decide⟩

/-! ## Pipeline records and the matcher

After loading, each transaction row carries the trimmed `Card` and
`Operation Number` keys, the `Accounting_Ref` source tag, the normalized
`RECUPERAR` flag and the cleaned `Amt_Float` amount (an exact rational in
the embedding).  `pd.merge(df_debt, df_credit, on=[col_card, col_op],
how='inner', suffixes=('_DEBT', '_CREDIT'))` becomes `innerJoin`. -/

structure TRow where
  card : String
  op : String
  ref : String
  recuperar : String
  amt : ℚ
deriving DecidableEq

/-- One matched pair of the merged table, with the suffix-qualified columns
`Accounting_Ref_DEBT/_CREDIT`, `Amt_Float_DEBT/_CREDIT`,
`RECUPERAR_DEBT/_CREDIT`. -/
structure Pair where
  card : String
  op : String
  refD : String
  refC : String
  drec : String
  crec : String
  amtD : ℚ
  amtC : ℚ
deriving DecidableEq

/-- Composite business key of a loaded row. -/
def rKey (r : TRow) : String × String := (r.card, r.op)

/-- Composite business key of a matched pair. -/
def pKey (p : Pair) : String × String := (p.card, p.op)

def mkPair (d c : TRow) : Pair :=
  ⟨d.card, d.op, d.ref, c.ref, d.recuperar, c.recuperar, d.amt, c.amt⟩

/-- Key agreement test used by the merge. -/
def sameKey (d c : TRow) : Bool := d.card == c.card && d.op == c.op

/-- Embedding of the inner join on `(Card, Operation Number)`: every debt row
is paired with every credit row sharing its key, with no deduplication. -/
def innerJoin (debt credit : List TRow) : List Pair :=
  debt.flatMap fun d => (credit.filter (fun c => sameKey d c)).map (fun c => mkPair d c)

theorem pKey_mkPair (d c : TRow) : pKey (mkPair d c) = rKey d := rfl

theorem countP_innerJoin (debt credit : List TRow) (k : String × String) :
    (innerJoin debt credit).countP (fun p => pKey p == k) =
      debt.countP (fun d => rKey d == k) * credit.countP (fun c => rKey c == k) := by
  induction debt with
  | nil => simp [innerJoin]
  | cons d ds ih =>
    rw [innerJoin, List.flatMap_cons, List.countP_append, ← innerJoin, ih,
      List.countP_cons]
    by_cases hd : rKey d = k
    · have hcnt : ∀ c : TRow, sameKey d c = true ↔ rKey c = k := by
        intro c
        simp only [sameKey, Bool.and_eq_true, beq_iff_eq, rKey, Prod.ext_iff]
        subst hd
        simp [rKey, eq_comm]
      have : ((credit.filter (fun c => sameKey d c)).map (fun c => mkPair d c)).countP
          (fun p => pKey p == k) =
          credit.countP (fun c => rKey c == k) := by
        rw [List.countP_map]
        have h1 : (credit.filter (fun c => sameKey d c)).countP
            (fun c => pKey (mkPair d c) == k) =
            (credit.filter (fun c => sameKey d c)).length := by
          rw [List.countP_eq_length]
          intro c _
          simp [pKey_mkPair, hd]
        have h2 : (credit.filter (fun c => sameKey d c)).length =
            credit.countP (fun c => rKey c == k) := by
          rw [← List.countP_eq_length_filter]
          exact List.countP_congr fun c _ => by
            simp [hcnt c, beq_iff_eq]
        simpa [Function.comp] using h1.trans h2
      rw [this]
      simp only [hd, beq_self_eq_true, if_true, if_pos rfl]
      ring
    · have : ((credit.filter (fun c => sameKey d c)).map (fun c => mkPair d c)).countP
          (fun p => pKey p == k) = 0 := by
        rw [List.countP_eq_zero]
        intro p hp
        simp only [List.mem_map, List.mem_filter] at hp
        obtain ⟨c, _, rfl⟩ := hp
        simp [pKey_mkPair, hd]
      rw [this]
      simp [hd]

/-- C2: for a composite key occurring in `N ≥ 1` debt rows and `M ≥ 1` credit
rows, the inner join holds exactly `N × M` matched pairs for that key — the
deliberate Cartesian-product semantics, with no deduplication. -/
theorem c2_cartesian_product_law (debt credit : List TRow) (k : String × String)
    (_hN : 1 ≤ debt.countP (fun d => rKey d == k))
    (_hM : 1 ≤ credit.countP (fun c => rKey c == k)) :
    (innerJoin debt credit).countP (fun p => pKey p == k) =
      debt.countP (fun d => rKey d == k) * credit.countP (fun c => rKey c == k) :=
  countP_innerJoin debt credit k

theorem c2_cartesian_product_law_witness :
    (innerJoin
        [⟨"C1", "OP1", "DF", "NO", 10⟩, ⟨"C1", "OP1", "DF", "NO", 20⟩]
        [⟨"C1", "OP1", "CF", "SI", 30⟩, ⟨"C1", "OP1", "CF", "SI", 40⟩,
          ⟨"C1", "OP1", "CF", "SI", 50⟩]).countP
      (fun p => pKey p == ("C1", "OP1")) = 2 * 3 := by
  have h := c2_cartesian_product_law
    [⟨"C1", "OP1", "DF", "NO", 10⟩, ⟨"C1", "OP1", "DF", "NO", 20⟩]
    [⟨"C1", "OP1", "CF", "SI", 30⟩, ⟨"C1", "OP1", "CF", "SI", 40⟩,
      ⟨"C1", "OP1", "CF", "SI", 50⟩]
    ("C1", "OP1") (by decide) (by decide)
  rw [h]
  decide

/-! ## Orphaned-records analysis

`sum_concil.py` ends the run with "No matches found" when the merge is
empty; otherwise it compares the credit pile's key set with the matched key
set.  Orphaned credits abort the run (printing the first five example keys);
orphaned debts are only reported.  The stage is modelled from the merge
onward; Python's `set` is modelled by `List.dedup`, and the arbitrary
iteration order of `list(orphaned_credit_keys)[:5]` by `take 5` of the
deduplicated list. -/

/-- Outcome of the matching / orphan-analysis stage: the run either stops
with no matches, aborts on orphaned credits, or proceeds to reporting with
the merged table. -/
inductive MatchOutcome where
  | noMatches : MatchOutcome
  | orphanedCreditsAbort : List (String × String) → MatchOutcome
  | proceed : List Pair → MatchOutcome
deriving DecidableEq

/-- Embedding of the merge plus the orphaned-records gate
(`robust_conciliation_duplicates_allowed`, matching and orphan analysis). -/
def matchAndOrphanStage (debt credit : List TRow) : MatchOutcome :=
  let merged := innerJoin debt credit
  if merged.isEmpty then .noMatches
  else
    let mergedKeys := (merged.map pKey).dedup
    let creditKeys := (credit.map rKey).dedup
    let orphanedCreditKeys := creditKeys.filter fun k => !(mergedKeys.contains k)
    if orphanedCreditKeys.isEmpty then .proceed merged
    else .orphanedCreditsAbort (orphanedCreditKeys.take 5)

/-- C4: an unmatched credit key always prevents the stage from producing a
report (the abort lists at most five example orphaned credit keys), while
unmatched debt keys alone never do: whenever there is at least one match and
no orphaned credit, the stage proceeds regardless of any unmatched debts. -/
theorem c4_orphan_asymmetry (debt credit : List TRow) :
    ((∃ k, k ∈ credit.map rKey ∧ k ∉ (innerJoin debt credit).map pKey) →
      ∀ m, matchAndOrphanStage debt credit ≠ .proceed m) ∧
    (innerJoin debt credit ≠ [] →
      (∀ k ∈ credit.map rKey, k ∈ (innerJoin debt credit).map pKey) →
      matchAndOrphanStage debt credit = .proceed (innerJoin debt credit)) ∧
    (∀ ex, matchAndOrphanStage debt credit = .orphanedCreditsAbort ex →
      ex.length ≤ 5 ∧
      ∀ k ∈ ex, k ∈ credit.map rKey ∧ k ∉ (innerJoin debt credit).map pKey) := by
  refine ⟨?_, ?_, ?_⟩
  · rintro ⟨k, hkc, hkm⟩ m hm
    simp only [matchAndOrphanStage] at hm
    by_cases he : (innerJoin debt credit).isEmpty
    · rw [if_pos he] at hm; simp at hm
    · rw [if_neg he] at hm
      by_cases ho : (((credit.map rKey).dedup).filter
          (fun k => !(((innerJoin debt credit).map pKey).dedup).contains k)).isEmpty
      · rw [List.isEmpty_iff] at ho
        have hk : k ∈ ((credit.map rKey).dedup).filter
            (fun k => !(((innerJoin debt credit).map pKey).dedup).contains k) := by
          rw [List.mem_filter]
          refine ⟨List.mem_dedup.mpr hkc, ?_⟩
          simp only [Bool.not_eq_true']
          rw [← Bool.not_eq_true, List.elem_iff]
          exact fun hc => hkm (List.mem_dedup.mp hc)
        rw [ho] at hk
        simp at hk
      · rw [if_neg ho] at hm
        simp at hm
  · intro hne hall
    simp only [matchAndOrphanStage]
    rw [if_neg (by simpa [List.isEmpty_iff] using hne)]
    have ho : ((credit.map rKey).dedup).filter
        (fun k => !(((innerJoin debt credit).map pKey).dedup).contains k) = [] := by
      rw [List.filter_eq_nil_iff]
      intro k hk
      simp only [Bool.not_eq_true', Bool.not_eq_false]
      exact List.elem_iff.mpr (List.mem_dedup.mpr (hall k (List.mem_dedup.mp hk)))
    rw [ho]
    simp
  · intro ex hex
    simp only [matchAndOrphanStage] at hex
    by_cases he : (innerJoin debt credit).isEmpty
    · rw [if_pos he] at hex; simp at hex
    · rw [if_neg he] at hex
      by_cases ho : (((credit.map rKey).dedup).filter
          (fun k => !(((innerJoin debt credit).map pKey).dedup).contains k)).isEmpty
      · rw [if_pos ho] at hex; simp at hex
      · rw [if_neg ho] at hex
        simp only [MatchOutcome.orphanedCreditsAbort.injEq] at hex
        subst hex
        refine ⟨by simp, ?_⟩
        intro k hk
        have hk' := List.mem_of_mem_take hk
        rw [List.mem_filter] at hk'
        refine ⟨List.mem_dedup.mp hk'.1, ?_⟩
        have h2 := hk'.2
        simp only [Bool.not_eq_true'] at h2
        rw [← Bool.not_eq_true, List.elem_iff] at h2
        exact fun hc => h2 (List.mem_dedup.mpr hc)

theorem c4_orphan_asymmetry_witness :
    (∀ m, matchAndOrphanStage
        [⟨"C1", "OP1", "DF", "NO", 10⟩]
        [⟨"C1", "OP1", "CF", "SI", 10⟩, ⟨"C2", "OP2", "CF", "SI", 5⟩] ≠
      MatchOutcome.proceed m) ∧
    matchAndOrphanStage
        [⟨"C1", "OP1", "DF", "NO", 10⟩, ⟨"C9", "OP9", "DF", "NO", 7⟩]
        [⟨"C1", "OP1", "CF", "SI", 10⟩] =
      MatchOutcome.proceed (innerJoin
        [⟨"C1", "OP1", "DF", "NO", 10⟩, ⟨"C9", "OP9", "DF", "NO", 7⟩]
        [⟨"C1", "OP1", "CF", "SI", 10⟩]) := by
  constructor
  · exact (c4_orphan_asymmetry _ _).1 ⟨("C2", "OP2"), by decide, by decide⟩
  · exact (c4_orphan_asymmetry _ _).2.1 (by decide) (by decide)

/-! ## Aggregation: accounting breakdowns

Both `groupby` views aggregate `Count_Operations` as the group size and
`Total_Conciliated_Amount` as the sum of `Amt_Float_DEBT` — never the credit
side, which would double-count duplicated credit rows. -/

structure BRow where
  fileA : String
  fileB : String
  countOps : ℕ
  totalConciliated : ℚ
deriving DecidableEq

/-- Embedding of the `By_Debt_File` view: group the merged table by
`(Accounting_Ref_DEBT, Accounting_Ref_CREDIT)`. -/
def debt_breakdown (merged : List Pair) : List BRow :=
  ((merged.map fun p => (p.refD, p.refC)).dedup).map fun k =>
    ⟨k.1, k.2, (merged.filter fun p => p.refD == k.1 && p.refC == k.2).length,
      ((merged.filter fun p => p.refD == k.1 && p.refC == k.2).map Pair.amtD).sum⟩

/-- Embedding of the `By_Credit_File` view: group by
`(Accounting_Ref_CREDIT, Accounting_Ref_DEBT)`; the summed column is still
`Amt_Float_DEBT`. -/
def credit_breakdown (merged : List Pair) : List BRow :=
  ((merged.map fun k => (k.refC, k.refD)).dedup).map fun k =>
    ⟨k.1, k.2, (merged.filter fun p => p.refC == k.1 && p.refD == k.2).length,
      ((merged.filter fun p => p.refC == k.1 && p.refD == k.2).map Pair.amtD).sum⟩

theorem mapFilterSwap {α β : Type} (f : α → β) (q : β → Bool) (l : List α) :
    (l.map f).filter q = (l.filter fun x => q (f x)).map f := by
  induction l with
  | nil => rfl
  | cons x xs ih =>
    simp only [List.map_cons, List.filter_cons]
    cases hq : q (f x) <;> simp [ih]

theorem innerJoin_map_amt (debt credit : List TRow) (g : ℚ → ℚ) :
    innerJoin debt (credit.map fun c => {c with amt := g c.amt}) =
      (innerJoin debt credit).map fun p => {p with amtC := g p.amtC} := by
  induction debt with
  | nil => simp [innerJoin]
  | cons d ds ih =>
    simp only [innerJoin, List.flatMap_cons] at ih ⊢
    rw [List.map_append]
    congr 1
    rw [mapFilterSwap, List.map_map, List.map_map]
    rfl

theorem debt_breakdown_map_amtC (merged : List Pair) (g : ℚ → ℚ) :
    debt_breakdown (merged.map fun p => {p with amtC := g p.amtC}) =
      debt_breakdown merged := by
  unfold debt_breakdown
  rw [List.map_map]
  have hk : ((fun p : Pair => (p.refD, p.refC)) ∘ fun p => {p with amtC := g p.amtC}) =
      fun p : Pair => (p.refD, p.refC) := rfl
  rw [hk]
  refine List.map_congr_left fun k _ => ?_
  rw [mapFilterSwap, List.map_map, List.length_map]
  rfl

theorem credit_breakdown_map_amtC (merged : List Pair) (g : ℚ → ℚ) :
    credit_breakdown (merged.map fun p => {p with amtC := g p.amtC}) =
      credit_breakdown merged := by
  unfold credit_breakdown
  rw [List.map_map]
  have hk : ((fun k : Pair => (k.refC, k.refD)) ∘ fun p => {p with amtC := g p.amtC}) =
      fun k : Pair => (k.refC, k.refD) := rfl
  rw [hk]
  refine List.map_congr_left fun k _ => ?_
  rw [mapFilterSwap, List.map_map, List.length_map]
  rfl

/-- C5: in both breakdown views every reported `Total_Conciliated_Amount`
equals the sum of the debt-side amounts of the group's matched pairs, and
the reported totals are invariant under any change of the credit-side
amounts — duplicated credit values can never inflate them. -/
theorem c5_debt_side_sum_invariant (debt credit : List TRow) (g : ℚ → ℚ) :
    (∀ e ∈ debt_breakdown (innerJoin debt credit),
      e.totalConciliated =
        (((innerJoin debt credit).filter
          fun p => p.refD == e.fileA && p.refC == e.fileB).map Pair.amtD).sum ∧
      e.countOps =
        ((innerJoin debt credit).filter
          fun p => p.refD == e.fileA && p.refC == e.fileB).length) ∧
    (∀ e ∈ credit_breakdown (innerJoin debt credit),
      e.totalConciliated =
        (((innerJoin debt credit).filter
          fun p => p.refC == e.fileA && p.refD == e.fileB).map Pair.amtD).sum) ∧
    debt_breakdown (innerJoin debt (credit.map fun c => {c with amt := g c.amt})) =
      debt_breakdown (innerJoin debt credit) ∧
    credit_breakdown (innerJoin debt (credit.map fun c => {c with amt := g c.amt})) =
      credit_breakdown (innerJoin debt credit) := by
  refine ⟨?_, ?_, ?_, ?_⟩
  · intro e he
    simp only [debt_breakdown, List.mem_map] at he
    obtain ⟨k, _, rfl⟩ := he
    exact ⟨rfl, rfl⟩
  · intro e he
    simp only [credit_breakdown, List.mem_map] at he
    obtain ⟨k, _, rfl⟩ := he
    exact rfl
  · rw [innerJoin_map_amt, debt_breakdown_map_amtC]
  · rw [innerJoin_map_amt, credit_breakdown_map_amtC]

theorem c5_debt_side_sum_invariant_witness :
    ((⟨"DF", "CF", 2, 30⟩ : BRow).totalConciliated =
        (((innerJoin
            [⟨"C1", "OP1", "DF", "NO", 10⟩, ⟨"C1", "OP1", "DF", "NO", 20⟩]
            [⟨"C1", "OP1", "CF", "SI", 99⟩]).filter
          fun p => p.refD == (⟨"DF", "CF", 2, 30⟩ : BRow).fileA &&
            p.refC == (⟨"DF", "CF", 2, 30⟩ : BRow).fileB).map Pair.amtD).sum) ∧
    debt_breakdown (innerJoin
        [⟨"C1", "OP1", "DF", "NO", 10⟩, ⟨"C1", "OP1", "DF", "NO", 20⟩]
        (([⟨"C1", "OP1", "CF", "SI", 99⟩] : List TRow).map
          fun c => {c with amt := (fun q : ℚ => q + 1000) c.amt})) =
      debt_breakdown (innerJoin
        [⟨"C1", "OP1", "DF", "NO", 10⟩, ⟨"C1", "OP1", "DF", "NO", 20⟩]
        [⟨"C1", "OP1", "CF", "SI", 99⟩]) := by
  have h := c5_debt_side_sum_invariant
    [⟨"C1", "OP1", "DF", "NO", 10⟩, ⟨"C1", "OP1", "DF", "NO", 20⟩]
    [⟨"C1", "OP1", "CF", "SI", 99⟩] (fun q => q + 1000)
  refine ⟨(h.1 ⟨"DF", "CF", 2, 30⟩ ?_).1, h.2.2.1⟩
  simp [debt_breakdown, innerJoin, sameKey, mkPair, List.dedup_cons_of_mem,
    List.dedup_cons_of_not_mem]
  norm_num

/-! ## Variance analysis (many-to-one validation)

The merged table is grouped by
`(Accounting_Ref_CREDIT, Card, Operation Number, Amt_Float_CREDIT)`; each
group sums the debt amounts it covers and the report keeps only the groups
whose variance exceeds the 0.01 tolerance, labelling the sign. -/

structure GKey where
  refC : String
  card : String
  op : String
  amtC : ℚ
deriving DecidableEq

structure VRow where
  refC : String
  card : String
  op : String
  amtC : ℚ
  totalDebtsCovered : ℚ
  countDebts : ℕ
  variance : ℚ
  status : String
deriving DecidableEq

def gkeyOf (p : Pair) : GKey := ⟨p.refC, p.card, p.op, p.amtC⟩

def vkeyOf (r : VRow) : GKey := ⟨r.refC, r.card, r.op, r.amtC⟩

def inGroup (k : GKey) (p : Pair) : Bool :=
  p.refC == k.refC && p.card == k.card && p.op == k.op && p.amtC == k.amtC

/-- One `variance_check` output row for a given group key. -/
def varianceRow (merged : List Pair) (k : GKey) : VRow :=
  ⟨k.refC, k.card, k.op, k.amtC,
    ((merged.filter (inGroup k)).map Pair.amtD).sum,
    (merged.filter (inGroup k)).length,
    k.amtC - ((merged.filter (inGroup k)).map Pair.amtD).sum, ""⟩

/-- Embedding of the `variance_check` groupby: one row per distinct group
key, with `Total_Debts_Covered`, `Count_Debts` and
`Variance = Amt_Float_CREDIT - Total_Debts_Covered`. -/
def variance_check (merged : List Pair) : List VRow :=
  ((merged.map gkeyOf).dedup).map (varianceRow merged)

/-- Embedding of `get_status`. -/
def get_status (v : ℚ) : String :=
  if 0 < v then "OVERPAID (Refund > Debts)" else "UNDERPAID (Refund < Debts)"

/-- Embedding of the `variance_report`: groups with `|Variance| > 0.01`,
with the `Status` column applied. -/
def variance_report (merged : List Pair) : List VRow :=
  ((variance_check merged).filter fun r => 1/100 < |r.variance|).map
    fun r => {r with status := get_status r.variance}

/-- Embedding of the `bad_credit_keys` set collected from the variance
report to disqualify files from full reconciliation. -/
def bad_credit_keys (merged : List Pair) : List (String × String × String) :=
  (variance_report merged).map fun r => (r.refC, r.card, r.op)

/-- C6: a `(credit_source_ref, card, operation, credit_amount)` group of
matched pairs appears in the variance report exactly when the absolute
variance against its summed debt amounts exceeds 0.01, labelled OVERPAID
for positive and UNDERPAID for negative variance. -/
theorem c6_variance_tolerance (merged : List Pair) (k : GKey)
    (hk : k ∈ (merged.map gkeyOf).dedup) :
    ((∃ r ∈ variance_report merged, vkeyOf r = k) ↔
      1/100 < |k.amtC - ((merged.filter (inGroup k)).map Pair.amtD).sum|) ∧
    (∀ r ∈ variance_report merged, vkeyOf r = k →
      r.variance = k.amtC - ((merged.filter (inGroup k)).map Pair.amtD).sum ∧
      (r.status = "OVERPAID (Refund > Debts)" ↔ 0 < r.variance) ∧
      (r.status = "UNDERPAID (Refund < Debts)" ↔ r.variance < 0)) := by
  have hmem : ∀ r : VRow, r ∈ variance_report merged ↔
      ∃ k' ∈ (merged.map gkeyOf).dedup,
        r = {varianceRow merged k' with
              status := get_status (varianceRow merged k').variance} ∧
        1/100 < |(varianceRow merged k').variance| := by
    intro r
    simp only [variance_report, variance_check, List.mem_map, List.mem_filter,
      decide_eq_true_eq]
    constructor
    · rintro ⟨r', ⟨⟨k', hk', rfl⟩, hv⟩, rfl⟩
      exact ⟨k', hk', rfl, hv⟩
    · rintro ⟨k', hk', rfl, hv⟩
      exact ⟨_, ⟨⟨k', hk', rfl⟩, hv⟩, rfl⟩
  have hvar : ∀ k' : GKey, (varianceRow merged k').variance =
      k'.amtC - ((merged.filter (inGroup k')).map Pair.amtD).sum := fun _ => rfl
  have hkey : ∀ k' : GKey,
      vkeyOf {varianceRow merged k' with
        status := get_status (varianceRow merged k').variance} = k' := fun _ => rfl
  constructor
  · constructor
    · rintro ⟨r, hr, hkr⟩
      obtain ⟨k', _, rfl, hv⟩ := (hmem r).mp hr
      rw [hkey k'] at hkr
      rw [hkr] at hv
      exact hv
    · intro hv
      exact ⟨_, (hmem _).mpr ⟨k, hk, rfl, hv⟩, hkey k⟩
  · intro r hr hkr
    obtain ⟨k', _, rfl, hv⟩ := (hmem r).mp hr
    rw [hkey k'] at hkr
    subst hkr
    refine ⟨rfl, ?_, ?_⟩
    · show get_status (varianceRow merged k').variance = _ ↔
        0 < (varianceRow merged k').variance
      unfold get_status
      by_cases hpos : 0 < (varianceRow merged k').variance
      · simp [hpos]
      · rw [if_neg hpos]
        simp only [hpos, iff_false]
        intro hcon
        exact absurd hcon (by decide)
    · show get_status (varianceRow merged k').variance = _ ↔
        (varianceRow merged k').variance < 0
      unfold get_status
      by_cases hpos : 0 < (varianceRow merged k').variance
      · rw [if_pos hpos]
        constructor
        · intro hcon
          exact absurd hcon (by decide)
        · intro hneg
          exact absurd (lt_trans hneg hpos) (lt_irrefl _)
      · rw [if_neg hpos]
        have hne : (varianceRow merged k').variance ≠ 0 := by
          intro h0
          rw [h0] at hv
          simp at hv
          exact absurd hv (by norm_num)
        simp only [true_iff]
        exact lt_of_le_of_ne (le_of_not_lt hpos) hne

theorem c6_variance_tolerance_witness :
    (∃ r ∈ variance_report
        [⟨"C1", "OP1", "DF", "CF", "NO", "", 100, 90⟩],
      vkeyOf r = ⟨"CF", "C1", "OP1", 90⟩) ∧
    (∀ r ∈ variance_report [⟨"C1", "OP1", "DF", "CF", "NO", "", 100, 90⟩],
      vkeyOf r = ⟨"CF", "C1", "OP1", 90⟩ →
      (r.status = "UNDERPAID (Refund < Debts)" ↔ r.variance < 0)) := by
  have h := c6_variance_tolerance
    [⟨"C1", "OP1", "DF", "CF", "NO", "", 100, 90⟩]
    ⟨"CF", "C1", "OP1", 90⟩ (by decide)
  refine ⟨h.1.mpr ?_, fun r hr hk => (h.2 r hr hk).2.2⟩
  simp [inGroup, List.filter]
  norm_num

/-! ## RECUPERAR business logic and the fully-reconciled summary

`pending_claims` keeps the debt rows flagged `RECUPERAR == 'NO'` whose key is
unmatched; `unexpected_refunds` keeps the matched pairs whose debt side is
not flagged `'NO'`.  The strict-mode summary walks the debt files, skips any
file with no `'NO'` rows, any pending claim, any unexpected refund, an
unmatched `'NO'` row, or a variance-tainted credit, and otherwise emits one
row per matching credit file; a `TOTAL` sentinel row is appended.  The
`temp_key` helper column added by the Python code holds each row's
`(Card, Operation Number)` pair, embedded directly as `rKey`. -/

/-- Embedding of the `pending_claims` filter. -/
def pending_claims (debt : List TRow) (merged : List Pair) : List TRow :=
  debt.filter fun r => r.recuperar == "NO" && !((merged.map pKey).contains (rKey r))

/-- Embedding of the `unexpected_refunds` filter. -/
def unexpected_refunds (merged : List Pair) : List Pair :=
  merged.filter fun p => !(p.drec == "NO")

structure FRRow where
  debtorFile : String
  creditorFile : String
  amount : ℚ
deriving DecidableEq

/-- Rows the strict-mode summary emits for one debt file (the exported
`DEBTOR FILE` / `CREDIT FILE NOTE` / `AMOUNT THAT MATCHED` columns). -/
def fileBlock (debt : List TRow) (merged : List Pair) (f : String) : List FRRow :=
  if (debt.filter fun r => r.ref == f && r.recuperar == "NO").isEmpty then []
  else if (pending_claims debt merged).any (fun r => r.ref == f) then []
  else if (unexpected_refunds merged).any (fun p => p.refD == f) then []
  else if (debt.filter fun r => r.ref == f && r.recuperar == "NO").length =
      ((debt.filter fun r => r.ref == f && r.recuperar == "NO").filter
        fun r => (merged.map pKey).contains (rKey r)).length then
    if (merged.filter fun p => p.refD == f && p.drec == "NO").any
        (fun p => (bad_credit_keys merged).contains (p.refC, p.card, p.op)) then []
    else ((merged.filter fun p => p.refD == f && p.drec == "NO").map Pair.refC).dedup.map
      fun rc => ⟨f, rc,
        (((merged.filter fun p => p.refD == f && p.drec == "NO").filter
          fun p => p.refC == rc).map Pair.amtD).sum⟩
  else []

/-- Embedding of the `fully_reconciled_files` accumulation over the debt
file groups. -/
def fully_reconciled_rows (debt : List TRow) (merged : List Pair) : List FRRow :=
  ((debt.map TRow.ref).dedup).flatMap (fileBlock debt merged)

/-- Embedding of the exported `Fully_Reconciled_Notes` sheet, with the
appended `TOTAL` sentinel row. -/
def fully_reconciled_sheet (debt : List TRow) (merged : List Pair) : List FRRow :=
  if (fully_reconciled_rows debt merged).isEmpty then []
  else fully_reconciled_rows debt merged ++
    [⟨"TOTAL", "", ((fully_reconciled_rows debt merged).map FRRow.amount).sum⟩]

theorem get_standardized_name_ne_TOTAL (fn : String) :
    get_standardized_name fn ≠ "TOTAL" := by
  unfold get_standardized_name
  dsimp only
  split
  · intro h
    have h2 := congrArg String.data h
    rw [data_append] at h2
    rw [show ("M2D-RECU ").data = 'M' :: "2D-RECU ".data from rfl,
      show ("TOTAL").data = 'T' :: "OTAL".data from rfl] at h2
    simp at h2
  · split
    · intro h
      have h2 := congrArg String.data h
      rw [data_append] at h2
      rw [show ("M6D-DEV ").data = 'M' :: "6D-DEV ".data from rfl,
        show ("TOTAL").data = 'T' :: "OTAL".data from rfl] at h2
      simp at h2
    · intro h
      have h2 := congrArg String.data h
      rw [data_append] at h2
      rw [show ("UNKNOWN ").data = 'U' :: "NKNOWN ".data from rfl,
        show ("TOTAL").data = 'T' :: "OTAL".data from rfl] at h2
      simp at h2

theorem fileBlock_debtorFile (debt : List TRow) (merged : List Pair) (f : String) :
    ∀ row ∈ fileBlock debt merged f, row.debtorFile = f := by
  intro row hrow
  unfold fileBlock at hrow
  split at hrow
  · exact absurd hrow (by simp)
  · split at hrow
    · exact absurd hrow (by simp)
    · split at hrow
      · exact absurd hrow (by simp)
      · split at hrow
        · split at hrow
          · exact absurd hrow (by simp)
          · obtain ⟨rc, _, rfl⟩ := List.mem_map.mp hrow
            rfl
        · exact absurd hrow (by simp)

theorem fileBlock_eq_nil_of_disq (debt : List TRow) (merged : List Pair) (f : String)
    (hdisq :
      (∃ p ∈ merged, p.refD = f ∧
        (p.refC, p.card, p.op) ∈ bad_credit_keys merged) ∨
      (∃ r ∈ pending_claims debt merged, r.ref = f) ∨
      (∃ p ∈ unexpected_refunds merged, p.refD = f)) :
    fileBlock debt merged f = [] := by
  unfold fileBlock
  split
  · rfl
  · split
    · rfl
    · split
      · rfl
      · rename_i h1 h2 h3
        rcases hdisq with ⟨p, hp, hrefd, hbad⟩ | ⟨r, hr, href⟩ | ⟨p, hp, hrefd⟩
        · by_cases hdr : p.drec = "NO"
          · split
            · split
              · rfl
              · rename_i hlen hnb
                exfalso
                apply hnb
                refine List.any_eq_true.mpr ⟨p, ?_, ?_⟩
                · exact List.mem_filter.mpr ⟨hp, by simp [hrefd, hdr]⟩
                · exact List.elem_iff.mpr hbad
            · rfl
          · exfalso
            exact h3 (List.any_eq_true.mpr
              ⟨p, List.mem_filter.mpr ⟨hp, by simp [hdr]⟩, by simp [hrefd]⟩)
        · exfalso
          exact h2 (List.any_eq_true.mpr ⟨r, hr, by simp [href]⟩)
        · exfalso
          exact h3 (List.any_eq_true.mpr ⟨p, hp, by simp [hrefd]⟩)

/-- C3: a debt file with any variance-tainted match, any pending claim, or
any unexpected refund never contributes a row to the Fully Reconciled
sheet (the `TOTAL` sentinel can never collide with a standardized file
name). -/
theorem c3_full_reconciliation_exclusivity (debt credit : List TRow) (fn : String)
    (hdisq :
      (∃ p ∈ innerJoin debt credit, p.refD = get_standardized_name fn ∧
        (p.refC, p.card, p.op) ∈ bad_credit_keys (innerJoin debt credit)) ∨
      (∃ r ∈ pending_claims debt (innerJoin debt credit),
        r.ref = get_standardized_name fn) ∨
      (∃ p ∈ unexpected_refunds (innerJoin debt credit),
        p.refD = get_standardized_name fn)) :
    ∀ row ∈ fully_reconciled_sheet debt (innerJoin debt credit),
      row.debtorFile ≠ get_standardized_name fn := by
  intro row hrow
  unfold fully_reconciled_sheet at hrow
  split at hrow
  · exact absurd hrow (by simp)
  · rw [List.mem_append] at hrow
    rcases hrow with hrow | hrow
    · unfold fully_reconciled_rows at hrow
      rw [List.mem_flatMap] at hrow
      obtain ⟨g, hg, hrowg⟩ := hrow
      have hdg := fileBlock_debtorFile debt (innerJoin debt credit) g row hrowg
      rw [hdg]
      intro hgf
      rw [hgf] at hrowg
      rw [fileBlock_eq_nil_of_disq debt _ _ hdisq] at hrowg
      exact absurd hrowg (by simp)
    · simp only [List.mem_singleton] at hrow
      rw [hrow]
      exact Ne.symm (get_standardized_name_ne_TOTAL fn)

set_option maxHeartbeats 1000000 in
theorem c3_full_reconciliation_exclusivity_witness :
    (⟨"TOTAL", "", 10⟩ : FRRow).debtorFile ≠ get_standardized_name "x.xlsx" := by
  have hj : innerJoin [⟨"C1", "OP1", "M2D-RECU 1.1.1", "NO", 10⟩, ⟨"C2", "OP2", "UNKNOWN x.xlsx", "NO", 5⟩] [⟨"C1", "OP1", "M6D-DEV 1.1.1", "SI", 10⟩] = [⟨"C1", "OP1", "M2D-RECU 1.1.1", "M6D-DEV 1.1.1", "NO", "SI", 10, 10⟩] := by decide
  have hpc : pending_claims [⟨"C1", "OP1", "M2D-RECU 1.1.1", "NO", 10⟩, ⟨"C2", "OP2", "UNKNOWN x.xlsx", "NO", 5⟩] ([⟨"C1", "OP1", "M2D-RECU 1.1.1", "M6D-DEV 1.1.1", "NO", "SI", 10, 10⟩] : List Pair) =
      [⟨"C2", "OP2", "UNKNOWN x.xlsx", "NO", 5⟩] := by decide
  have hur : unexpected_refunds ([⟨"C1", "OP1", "M2D-RECU 1.1.1", "M6D-DEV 1.1.1", "NO", "SI", 10, 10⟩] : List Pair) = [] := by decide
  have hvr : variance_report ([⟨"C1", "OP1", "M2D-RECU 1.1.1", "M6D-DEV 1.1.1", "NO", "SI", 10, 10⟩] : List Pair) = [] := by
    norm_num [variance_report, variance_check, varianceRow, gkeyOf, inGroup]
  have hbk : bad_credit_keys ([⟨"C1", "OP1", "M2D-RECU 1.1.1", "M6D-DEV 1.1.1", "NO", "SI", 10, 10⟩] : List Pair) = [] := by
    rw [bad_credit_keys, hvr]
    rfl
  have hfbA : fileBlock [⟨"C1", "OP1", "M2D-RECU 1.1.1", "NO", 10⟩, ⟨"C2", "OP2", "UNKNOWN x.xlsx", "NO", 5⟩] ([⟨"C1", "OP1", "M2D-RECU 1.1.1", "M6D-DEV 1.1.1", "NO", "SI", 10, 10⟩] : List Pair) "M2D-RECU 1.1.1" =
      [⟨"M2D-RECU 1.1.1", "M6D-DEV 1.1.1", 10⟩] := by
    unfold fileBlock
    rw [hpc, hur, hbk]
    norm_num
    decide
  have hmem2 : (⟨"C2", "OP2", "UNKNOWN x.xlsx", "NO", 5⟩ : TRow) ∈
      pending_claims [⟨"C1", "OP1", "M2D-RECU 1.1.1", "NO", 10⟩, ⟨"C2", "OP2", "UNKNOWN x.xlsx", "NO", 5⟩] ([⟨"C1", "OP1", "M2D-RECU 1.1.1", "M6D-DEV 1.1.1", "NO", "SI", 10, 10⟩] : List Pair) := by
    rw [hpc]
    exact List.mem_singleton.mpr rfl
  have hfbB : fileBlock [⟨"C1", "OP1", "M2D-RECU 1.1.1", "NO", 10⟩, ⟨"C2", "OP2", "UNKNOWN x.xlsx", "NO", 5⟩] ([⟨"C1", "OP1", "M2D-RECU 1.1.1", "M6D-DEV 1.1.1", "NO", "SI", 10, 10⟩] : List Pair) "UNKNOWN x.xlsx" = [] :=
    fileBlock_eq_nil_of_disq _ _ _ (Or.inr (Or.inl ⟨_, hmem2, rfl⟩))
  have hrr : fully_reconciled_rows [⟨"C1", "OP1", "M2D-RECU 1.1.1", "NO", 10⟩, ⟨"C2", "OP2", "UNKNOWN x.xlsx", "NO", 5⟩] ([⟨"C1", "OP1", "M2D-RECU 1.1.1", "M6D-DEV 1.1.1", "NO", "SI", 10, 10⟩] : List Pair) =
      [⟨"M2D-RECU 1.1.1", "M6D-DEV 1.1.1", 10⟩] := by
    unfold fully_reconciled_rows
    rw [show (([⟨"C1", "OP1", "M2D-RECU 1.1.1", "NO", 10⟩, ⟨"C2", "OP2", "UNKNOWN x.xlsx", "NO", 5⟩] : List TRow).map TRow.ref).dedup =
      ["M2D-RECU 1.1.1", "UNKNOWN x.xlsx"] from by decide]
    rw [List.flatMap_cons, List.flatMap_cons, List.flatMap_nil, hfbA, hfbB]
    rfl
  have hsheet : fully_reconciled_sheet [⟨"C1", "OP1", "M2D-RECU 1.1.1", "NO", 10⟩, ⟨"C2", "OP2", "UNKNOWN x.xlsx", "NO", 5⟩] ([⟨"C1", "OP1", "M2D-RECU 1.1.1", "M6D-DEV 1.1.1", "NO", "SI", 10, 10⟩] : List Pair) =
      [⟨"M2D-RECU 1.1.1", "M6D-DEV 1.1.1", 10⟩, ⟨"TOTAL", "", 10⟩] := by
    unfold fully_reconciled_sheet
    rw [hrr]
    norm_num
  have href : (⟨"C2", "OP2", "UNKNOWN x.xlsx", "NO", 5⟩ : TRow).ref =
      get_standardized_name "x.xlsx" := by decide
  have h := c3_full_reconciliation_exclusivity
    [⟨"C1", "OP1", "M2D-RECU 1.1.1", "NO", 10⟩, ⟨"C2", "OP2", "UNKNOWN x.xlsx", "NO", 5⟩]
    [⟨"C1", "OP1", "M6D-DEV 1.1.1", "SI", 10⟩]
    "x.xlsx"
    (Or.inr (Or.inl ⟨_, by rw [hj]; exact hmem2, href⟩))
  apply h
  rw [hj, hsheet]
  exact List.mem_cons.mpr (Or.inr (List.mem_singleton.mpr rfl))
/-! ## Frame behaviour of the classifier (`temp_key`)

`robust_conciliation_duplicates_allowed` executes
`df_debt['temp_key'] = list(zip(df_debt[col_card], df_debt[col_op]))` after
the matcher has already consumed `df_debt`, adding a helper column to the
debt table in place; the clean-up `drop` is commented out.  A table is
modelled as its rows plus the optional `temp_key` column. -/

structure DebtDF where
  rows : List TRow
  tempKeyCol : Option (List (String × String))
deriving DecidableEq

/-- Debt table as produced by the Loader: no `temp_key` column. -/
def loadedDebtDF (rows : List TRow) : DebtDF := ⟨rows, none⟩

/-- Effect of the classifier's in-place `temp_key` column assignment on the
debt table. -/
def addTempKeyCol (df : DebtDF) : DebtDF := ⟨df.rows, some (df.rows.map rKey)⟩

theorem c7_no_mutation_counterexample :
    addTempKeyCol (loadedDebtDF [⟨"C1", "OP1", "M2D-RECU 1.1.1", "NO", 10⟩]) ≠
      loadedDebtDF [⟨"C1", "OP1", "M2D-RECU 1.1.1", "NO", 10⟩] := by
  decide

/-- C7 (amended): the only in-place mutation of a handed-off table after the
Loader's cleaning pass is the classifier adding the `temp_key` helper column
(each row's `(Card, Operation Number)` pair, never dropped) to the debt pile
table; the rows themselves — every other column and value, and hence
everything the matcher consumed — are unchanged. -/
theorem c7_only_temp_key_added (rows credit : List TRow) :
    (addTempKeyCol (loadedDebtDF rows)).rows = rows ∧
    (addTempKeyCol (loadedDebtDF rows)).tempKeyCol = some (rows.map rKey) ∧
    innerJoin (addTempKeyCol (loadedDebtDF rows)).rows credit =
      innerJoin rows credit :=
  ⟨rfl, rfl, rfl⟩

/-! ## Net-Balance Resolver (modelled from the spec)

The provided `sum_concil.py` contains no net-balance stage; the repository's
regression suite (`repro_all_regressions.py`) checks a `Net_Balanced_Files`
sheet produced by it.  The stage is therefore modelled from the spec. -/

structure NBRow where
  debtorFile : String
  role : String
  card : String
  op : String
  amount : ℚ
  status : String
deriving DecidableEq

/-- Debt files qualifying as Fully Reconciled (those contributing rows). -/
def fully_reconciled_file_names (debt : List TRow) (merged : List Pair) :
    List String :=
  (fully_reconciled_rows debt merged).map FRRow.debtorFile

/-- Modelled from the spec: the Net-Balance Resolver (spec §4.8) is missing
from `sum_concil.py` as provided — only its regression test references the
`Net_Balanced_Files` sheet.  Following the spec's words: every debt-source
file that is not already fully reconciled but appears in the pending-claim
or unexpected-refund sets is NET BALANCED when `|sum_p - sum_u| < 0.01` with
at least one side nonzero, where `sum_p` sums the file's pending-claim
amounts and `sum_u` its unexpected-refund credit amounts; one row is emitted
per contributing pending claim, unexpected refund, and correctly-matched
`must_refund == NO` pair of the file. -/
def net_balanced_block (debt : List TRow) (merged : List Pair) (f : String) :
    List NBRow :=
  if |(((pending_claims debt merged).filter fun r => r.ref == f).map
          TRow.amt).sum -
        (((unexpected_refunds merged).filter fun p => p.refD == f).map
          Pair.amtC).sum| < 1/100 ∧
      ((((pending_claims debt merged).filter fun r => r.ref == f).map
          TRow.amt).sum ≠ 0 ∨
        (((unexpected_refunds merged).filter fun p => p.refD == f).map
          Pair.amtC).sum ≠ 0) then
    (((pending_claims debt merged).filter fun r => r.ref == f).map fun r =>
      ⟨f, "PENDING CLAIM", r.card, r.op, r.amt, "NET BALANCED"⟩) ++
    (((unexpected_refunds merged).filter fun p => p.refD == f).map fun p =>
      ⟨f, "UNEXPECTED REFUND", p.card, p.op, p.amtC, "NET BALANCED"⟩) ++
    ((merged.filter fun p => p.refD == f && p.drec == "NO").map fun p =>
      ⟨f, "MATCHED OK", p.card, p.op, p.amtD, "NET BALANCED"⟩)
  else []

/-- Modelled from the spec: the `Net_Balanced_Files` sheet — one block per
candidate debt file (not fully reconciled, with pending claims or unexpected
refunds). -/
def net_balanced_sheet (debt : List TRow) (merged : List Pair) : List NBRow :=
  (((debt.map TRow.ref).dedup).filter fun f =>
      !((fully_reconciled_file_names debt merged).contains f) &&
      ((pending_claims debt merged).any (fun r => r.ref == f) ||
        (unexpected_refunds merged).any (fun p => p.refD == f))).flatMap
    (net_balanced_block debt merged)

theorem innerJoin_refD_mem (debt credit : List TRow) (p : Pair)
    (hp : p ∈ innerJoin debt credit) : p.refD ∈ debt.map TRow.ref := by
  unfold innerJoin at hp
  rw [List.mem_flatMap] at hp
  obtain ⟨d, hd, hp⟩ := hp
  obtain ⟨c, _, rfl⟩ := List.mem_map.mp hp
  exact List.mem_map.mpr ⟨d, hd, rfl⟩

theorem filter_flatMap_single (L : List String) (h : String → List NBRow)
    (f : String) (hN : L.Nodup) (hk : ∀ g, ∀ r ∈ h g, r.debtorFile = g)
    (hf : f ∈ L) :
    (L.flatMap h).filter (fun r => r.debtorFile == f) = h f := by
  induction L with
  | nil => exact absurd hf (by simp)
  | cons a L ih =>
    rw [List.flatMap_cons, List.filter_append]
    rcases List.mem_cons.mp hf with rfl | hf'
    · have h1 : (h f).filter (fun r => r.debtorFile == f) = h f := by
        rw [List.filter_eq_self]
        intro r hr
        simp [hk f r hr]
      have h2 : (L.flatMap h).filter (fun r => r.debtorFile == f) = [] := by
        rw [List.filter_eq_nil_iff]
        intro r hr
        rw [List.mem_flatMap] at hr
        obtain ⟨g, hg, hrg⟩ := hr
        have hga : g ≠ f := fun hga => (List.nodup_cons.mp hN).1 (hga ▸ hg)
        simp [hk g r hrg, hga]
      rw [h1, h2, List.append_nil]
    · have hfa : a ≠ f := by
        intro hfa
        exact (List.nodup_cons.mp hN).1 (hfa ▸ hf')
      have h1 : (h a).filter (fun r => r.debtorFile == f) = [] := by
        rw [List.filter_eq_nil_iff]
        intro r hr
        simp [hk a r hr, hfa]
      rw [h1, List.nil_append]
      exact ih (List.nodup_cons.mp hN).2 hf'

theorem net_balanced_block_debtor (debt : List TRow) (merged : List Pair)
    (f : String) :
    ∀ r ∈ net_balanced_block debt merged f,
      r.debtorFile = f ∧ r.status = "NET BALANCED" := by
  intro r hr
  unfold net_balanced_block at hr
  split at hr
  · rcases List.mem_append.mp hr with hr | hr
    · rcases List.mem_append.mp hr with hr | hr
      · obtain ⟨x, _, rfl⟩ := List.mem_map.mp hr
        exact ⟨rfl, rfl⟩
      · obtain ⟨x, _, rfl⟩ := List.mem_map.mp hr
        exact ⟨rfl, rfl⟩
    · obtain ⟨x, _, rfl⟩ := List.mem_map.mp hr
      exact ⟨rfl, rfl⟩
  · exact absurd hr (by simp)

/-- C1: a debt file that is not fully reconciled but has pending claims or
unexpected refunds, whose pending-claim total and unexpected-refund credit
total differ by less than 0.01 with at least one side nonzero, is classified
NET BALANCED: the sheet holds exactly one row per contributing pending
claim, unexpected refund, and correctly-matched `must_refund == NO` pair of
the file, every row carrying the NET BALANCED status.  (The Net-Balance
Resolver itself is modelled from the spec, being absent from the provided
source.) -/
theorem c1_net_balanced_files (debt credit : List TRow) (f : String)
    (hnf : f ∉ fully_reconciled_file_names debt (innerJoin debt credit))
    (happ : (∃ r ∈ pending_claims debt (innerJoin debt credit), r.ref = f) ∨
      (∃ p ∈ unexpected_refunds (innerJoin debt credit), p.refD = f))
    (hbal : |(((pending_claims debt (innerJoin debt credit)).filter
          fun r => r.ref == f).map TRow.amt).sum -
        (((unexpected_refunds (innerJoin debt credit)).filter
          fun p => p.refD == f).map Pair.amtC).sum| < 1/100)
    (hnz : (((pending_claims debt (innerJoin debt credit)).filter
          fun r => r.ref == f).map TRow.amt).sum ≠ 0 ∨
        (((unexpected_refunds (innerJoin debt credit)).filter
          fun p => p.refD == f).map Pair.amtC).sum ≠ 0) :
    (net_balanced_sheet debt (innerJoin debt credit)).filter
        (fun row => row.debtorFile == f) =
      (((pending_claims debt (innerJoin debt credit)).filter
          fun r => r.ref == f).map fun r =>
        (⟨f, "PENDING CLAIM", r.card, r.op, r.amt, "NET BALANCED"⟩ : NBRow)) ++
      (((unexpected_refunds (innerJoin debt credit)).filter
          fun p => p.refD == f).map fun p =>
        ⟨f, "UNEXPECTED REFUND", p.card, p.op, p.amtC, "NET BALANCED"⟩) ++
      (((innerJoin debt credit).filter fun p => p.refD == f && p.drec == "NO").map
        fun p => ⟨f, "MATCHED OK", p.card, p.op, p.amtD, "NET BALANCED"⟩) ∧
    ∀ row ∈ (net_balanced_sheet debt (innerJoin debt credit)).filter
        (fun row => row.debtorFile == f), row.status = "NET BALANCED" := by
  have hfDebt : f ∈ debt.map TRow.ref := by
    rcases happ with ⟨r, hr, rfl⟩ | ⟨p, hp, hrefd⟩
    · exact List.mem_map.mpr ⟨r, List.mem_of_mem_filter hr, rfl⟩
    · exact hrefd ▸ innerJoin_refD_mem debt credit p (List.mem_of_mem_filter hp)
  have hfL : f ∈ ((debt.map TRow.ref).dedup).filter fun g =>
      !((fully_reconciled_file_names debt (innerJoin debt credit)).contains g) &&
      ((pending_claims debt (innerJoin debt credit)).any (fun r => r.ref == g) ||
        (unexpected_refunds (innerJoin debt credit)).any (fun p => p.refD == g)) := by
    rw [List.mem_filter]
    refine ⟨List.mem_dedup.mpr hfDebt, ?_⟩
    rw [Bool.and_eq_true]
    constructor
    · rw [Bool.not_eq_true', ← Bool.not_eq_true, List.elem_iff]
      exact hnf
    · rw [Bool.or_eq_true]
      rcases happ with ⟨r, hr, href⟩ | ⟨p, hp, hrefd⟩
      · exact Or.inl (List.any_eq_true.mpr ⟨r, hr, by simp [href]⟩)
      · exact Or.inr (List.any_eq_true.mpr ⟨p, hp, by simp [hrefd]⟩)
  have hNodup : (((debt.map TRow.ref).dedup).filter fun g =>
      !((fully_reconciled_file_names debt (innerJoin debt credit)).contains g) &&
      ((pending_claims debt (innerJoin debt credit)).any (fun r => r.ref == g) ||
        (unexpected_refunds (innerJoin debt credit)).any
          (fun p => p.refD == g))).Nodup :=
    List.Nodup.filter _ (List.nodup_dedup _)
  have hfilter := filter_flatMap_single _
    (net_balanced_block debt (innerJoin debt credit)) f hNodup
    (fun g r hr =>
      (net_balanced_block_debtor debt (innerJoin debt credit) g r hr).1) hfL
  constructor
  · rw [net_balanced_sheet, hfilter]
    unfold net_balanced_block
    rw [if_pos ⟨hbal, hnz⟩]
  · intro row hrow
    rw [net_balanced_sheet, hfilter] at hrow
    exact (net_balanced_block_debtor debt (innerJoin debt credit) f row hrow).2

set_option maxHeartbeats 1000000 in
theorem c1_net_balanced_files_witness :
    (net_balanced_sheet [⟨"C1", "OP1", "M2D-RECU 1.3.1", "NO", 50⟩, ⟨"C2", "OP2", "M2D-RECU 1.3.1", "SI", 50⟩, ⟨"C3", "OP3", "M2D-RECU 1.3.1", "NO", 30⟩]
        (innerJoin [⟨"C1", "OP1", "M2D-RECU 1.3.1", "NO", 50⟩, ⟨"C2", "OP2", "M2D-RECU 1.3.1", "SI", 50⟩, ⟨"C3", "OP3", "M2D-RECU 1.3.1", "NO", 30⟩] [⟨"C2", "OP2", "M6D-DEV 1.3.1", "X", 50⟩, ⟨"C3", "OP3", "M6D-DEV 1.3.1", "X", 30⟩])).filter
        (fun row => row.debtorFile == "M2D-RECU 1.3.1") =
      [⟨"M2D-RECU 1.3.1", "PENDING CLAIM", "C1", "OP1", 50, "NET BALANCED"⟩,
        ⟨"M2D-RECU 1.3.1", "UNEXPECTED REFUND", "C2", "OP2", 50, "NET BALANCED"⟩,
        ⟨"M2D-RECU 1.3.1", "MATCHED OK", "C3", "OP3", 30, "NET BALANCED"⟩] := by
  have hj : innerJoin [⟨"C1", "OP1", "M2D-RECU 1.3.1", "NO", 50⟩, ⟨"C2", "OP2", "M2D-RECU 1.3.1", "SI", 50⟩, ⟨"C3", "OP3", "M2D-RECU 1.3.1", "NO", 30⟩] [⟨"C2", "OP2", "M6D-DEV 1.3.1", "X", 50⟩, ⟨"C3", "OP3", "M6D-DEV 1.3.1", "X", 30⟩] = [⟨"C2", "OP2", "M2D-RECU 1.3.1", "M6D-DEV 1.3.1", "SI", "X", 50, 50⟩, ⟨"C3", "OP3", "M2D-RECU 1.3.1", "M6D-DEV 1.3.1", "NO", "X", 30, 30⟩] := by decide
  have hps : ((pending_claims [⟨"C1", "OP1", "M2D-RECU 1.3.1", "NO", 50⟩, ⟨"C2", "OP2", "M2D-RECU 1.3.1", "SI", 50⟩, ⟨"C3", "OP3", "M2D-RECU 1.3.1", "NO", 30⟩]
        (innerJoin [⟨"C1", "OP1", "M2D-RECU 1.3.1", "NO", 50⟩, ⟨"C2", "OP2", "M2D-RECU 1.3.1", "SI", 50⟩, ⟨"C3", "OP3", "M2D-RECU 1.3.1", "NO", 30⟩] [⟨"C2", "OP2", "M6D-DEV 1.3.1", "X", 50⟩, ⟨"C3", "OP3", "M6D-DEV 1.3.1", "X", 30⟩])).filter
      fun r => r.ref == "M2D-RECU 1.3.1") = [⟨"C1", "OP1", "M2D-RECU 1.3.1", "NO", 50⟩] := by decide
  have hus : ((unexpected_refunds
        (innerJoin [⟨"C1", "OP1", "M2D-RECU 1.3.1", "NO", 50⟩, ⟨"C2", "OP2", "M2D-RECU 1.3.1", "SI", 50⟩, ⟨"C3", "OP3", "M2D-RECU 1.3.1", "NO", 30⟩] [⟨"C2", "OP2", "M6D-DEV 1.3.1", "X", 50⟩, ⟨"C3", "OP3", "M6D-DEV 1.3.1", "X", 30⟩])).filter
      fun p => p.refD == "M2D-RECU 1.3.1") = [⟨"C2", "OP2", "M2D-RECU 1.3.1", "M6D-DEV 1.3.1", "SI", "X", 50, 50⟩] := by decide
  have hnf : "M2D-RECU 1.3.1" ∉ fully_reconciled_file_names [⟨"C1", "OP1", "M2D-RECU 1.3.1", "NO", 50⟩, ⟨"C2", "OP2", "M2D-RECU 1.3.1", "SI", 50⟩, ⟨"C3", "OP3", "M2D-RECU 1.3.1", "NO", 30⟩]
      (innerJoin [⟨"C1", "OP1", "M2D-RECU 1.3.1", "NO", 50⟩, ⟨"C2", "OP2", "M2D-RECU 1.3.1", "SI", 50⟩, ⟨"C3", "OP3", "M2D-RECU 1.3.1", "NO", 30⟩] [⟨"C2", "OP2", "M6D-DEV 1.3.1", "X", 50⟩, ⟨"C3", "OP3", "M6D-DEV 1.3.1", "X", 30⟩]) := by decide
  have happ : (∃ r ∈ pending_claims [⟨"C1", "OP1", "M2D-RECU 1.3.1", "NO", 50⟩, ⟨"C2", "OP2", "M2D-RECU 1.3.1", "SI", 50⟩, ⟨"C3", "OP3", "M2D-RECU 1.3.1", "NO", 30⟩]
        (innerJoin [⟨"C1", "OP1", "M2D-RECU 1.3.1", "NO", 50⟩, ⟨"C2", "OP2", "M2D-RECU 1.3.1", "SI", 50⟩, ⟨"C3", "OP3", "M2D-RECU 1.3.1", "NO", 30⟩] [⟨"C2", "OP2", "M6D-DEV 1.3.1", "X", 50⟩, ⟨"C3", "OP3", "M6D-DEV 1.3.1", "X", 30⟩]), r.ref = "M2D-RECU 1.3.1") ∨
      (∃ p ∈ unexpected_refunds (innerJoin [⟨"C1", "OP1", "M2D-RECU 1.3.1", "NO", 50⟩, ⟨"C2", "OP2", "M2D-RECU 1.3.1", "SI", 50⟩, ⟨"C3", "OP3", "M2D-RECU 1.3.1", "NO", 30⟩] [⟨"C2", "OP2", "M6D-DEV 1.3.1", "X", 50⟩, ⟨"C3", "OP3", "M6D-DEV 1.3.1", "X", 30⟩]),
        p.refD = "M2D-RECU 1.3.1") :=
    Or.inl ⟨⟨"C1", "OP1", "M2D-RECU 1.3.1", "NO", 50⟩, by decide, rfl⟩
  have hbal : |(((pending_claims [⟨"C1", "OP1", "M2D-RECU 1.3.1", "NO", 50⟩, ⟨"C2", "OP2", "M2D-RECU 1.3.1", "SI", 50⟩, ⟨"C3", "OP3", "M2D-RECU 1.3.1", "NO", 30⟩]
          (innerJoin [⟨"C1", "OP1", "M2D-RECU 1.3.1", "NO", 50⟩, ⟨"C2", "OP2", "M2D-RECU 1.3.1", "SI", 50⟩, ⟨"C3", "OP3", "M2D-RECU 1.3.1", "NO", 30⟩] [⟨"C2", "OP2", "M6D-DEV 1.3.1", "X", 50⟩, ⟨"C3", "OP3", "M6D-DEV 1.3.1", "X", 30⟩])).filter
        fun r => r.ref == "M2D-RECU 1.3.1").map TRow.amt).sum -
      (((unexpected_refunds (innerJoin [⟨"C1", "OP1", "M2D-RECU 1.3.1", "NO", 50⟩, ⟨"C2", "OP2", "M2D-RECU 1.3.1", "SI", 50⟩, ⟨"C3", "OP3", "M2D-RECU 1.3.1", "NO", 30⟩] [⟨"C2", "OP2", "M6D-DEV 1.3.1", "X", 50⟩, ⟨"C3", "OP3", "M6D-DEV 1.3.1", "X", 30⟩])).filter
        fun p => p.refD == "M2D-RECU 1.3.1").map Pair.amtC).sum| < 1/100 := by
    rw [hps, hus]
    norm_num
  have hnz : (((pending_claims [⟨"C1", "OP1", "M2D-RECU 1.3.1", "NO", 50⟩, ⟨"C2", "OP2", "M2D-RECU 1.3.1", "SI", 50⟩, ⟨"C3", "OP3", "M2D-RECU 1.3.1", "NO", 30⟩]
          (innerJoin [⟨"C1", "OP1", "M2D-RECU 1.3.1", "NO", 50⟩, ⟨"C2", "OP2", "M2D-RECU 1.3.1", "SI", 50⟩, ⟨"C3", "OP3", "M2D-RECU 1.3.1", "NO", 30⟩] [⟨"C2", "OP2", "M6D-DEV 1.3.1", "X", 50⟩, ⟨"C3", "OP3", "M6D-DEV 1.3.1", "X", 30⟩])).filter
        fun r => r.ref == "M2D-RECU 1.3.1").map TRow.amt).sum ≠ 0 ∨
      (((unexpected_refunds (innerJoin [⟨"C1", "OP1", "M2D-RECU 1.3.1", "NO", 50⟩, ⟨"C2", "OP2", "M2D-RECU 1.3.1", "SI", 50⟩, ⟨"C3", "OP3", "M2D-RECU 1.3.1", "NO", 30⟩] [⟨"C2", "OP2", "M6D-DEV 1.3.1", "X", 50⟩, ⟨"C3", "OP3", "M6D-DEV 1.3.1", "X", 30⟩])).filter
        fun p => p.refD == "M2D-RECU 1.3.1").map Pair.amtC).sum ≠ 0 := by
    rw [hps]
    left
    norm_num
  have h := c1_net_balanced_files [⟨"C1", "OP1", "M2D-RECU 1.3.1", "NO", 50⟩, ⟨"C2", "OP2", "M2D-RECU 1.3.1", "SI", 50⟩, ⟨"C3", "OP3", "M2D-RECU 1.3.1", "NO", 30⟩] [⟨"C2", "OP2", "M6D-DEV 1.3.1", "X", 50⟩, ⟨"C3", "OP3", "M6D-DEV 1.3.1", "X", 30⟩] "M2D-RECU 1.3.1" hnf happ hbal hnz
  rw [h.1, hps, hus, hj]
  decide

/-! ## Record Loader (`load_pile`)

Files are read with all cells as text; rows whose two key cells are both
blank are dropped; keys are stripped; the amount text is cleaned to
`[0-9.-]` and parsed (`NaN → 0.0`, modelled as an exact decimal rational, or
`none` when the amount column is absent); `RECUPERAR` defaults to `"SI"`.
The per-file map `individual_files` is keyed by the standardized name, so a
later file with the same key replaces the earlier entry (Python dict
assignment); empty/NA cells are modelled as whitespace-only strings. -/

structure RawRow where
  card : String
  op : String
  amount : String
  recuperar : String
deriving DecidableEq

structure InFile where
  name : String
  hasCard : Bool
  hasOp : Bool
  hasAmount : Bool
  hasRecuperar : Bool
  rows : List RawRow
deriving DecidableEq

structure LRow where
  card : String
  op : String
  ref : String
  recuperar : String
  amt : Option ℚ
deriving DecidableEq

/-- Blank cell test, modelling the `^\s*$` → `NA` replacement. -/
def isBlankCell (s : String) : Bool := s.data.all Char.isWhitespace

def natOfDigits (l : List Char) : ℕ :=
  l.foldl (fun acc c => 10 * acc + (c.toNat - ('0').toNat)) 0

/-- Unsigned decimal parser over cleaned characters. -/
def parseUDec (s : List Char) : Option ℚ :=
  match s.dropWhile Char.isDigit with
  | [] =>
    if (s.takeWhile Char.isDigit).isEmpty then none
    else some (natOfDigits (s.takeWhile Char.isDigit))
  | '.' :: frac =>
    if frac.all Char.isDigit ∧
        ((s.takeWhile Char.isDigit) ≠ [] ∨ frac ≠ []) then
      some ((natOfDigits (s.takeWhile Char.isDigit) : ℚ) +
        (natOfDigits frac : ℚ) / (10 ^ frac.length))
    else none
  | _ => none

/-- Signed decimal parser, modelling `pd.to_numeric` on the cleaned text. -/
def parseDec (s : List Char) : Option ℚ :=
  match s with
  | '-' :: rest => (parseUDec rest).map (fun q => -q)
  | _ => parseUDec s

/-- Strip every character outside `[0-9.-]`, as `str.replace(r'[^\d.-]', '')`. -/
def cleanAmt (s : String) : List Char :=
  s.data.filter fun c => c.isDigit || c == '.' || c == '-'

/-- Amount cleaning: parse the cleaned text, `0` on failure (`fillna(0.0)`). -/
def parseAmt (s : String) : ℚ :=
  match parseDec (cleanAmt s) with
  | some q => q
  | none => 0

/-- Per-file processing of the Loader: skip a file missing the key columns,
drop blank trailing rows, tag rows with the standardized name, strip keys,
parse the amount, normalize `RECUPERAR`. -/
def processFile (f : InFile) : Option (List LRow) :=
  if f.hasCard && f.hasOp then
    some ((f.rows.filter fun r => !(isBlankCell r.card && isBlankCell r.op)).map
      fun r =>
        { card := stripStr r.card, op := stripStr r.op,
          ref := get_standardized_name f.name,
          recuperar := if f.hasRecuperar then upperStr (stripStr r.recuperar)
            else "SI",
          amt := if f.hasAmount then some (parseAmt r.amount) else none })
  else none

/-- Python dict assignment `individual_files[std_name] = df`. -/
def dictInsert (m : List (String × List LRow)) (k : String) (v : List LRow) :
    List (String × List LRow) :=
  if m.any fun e => e.1 == k then
    m.map fun e => if e.1 == k then (k, v) else e
  else m ++ [(k, v)]

/-- Python dict lookup. -/
def dictLookup (m : List (String × List LRow)) (k : String) :
    Option (List LRow) :=
  (m.find? fun e => e.1 == k).map Prod.snd

/-- One Loader iteration: append the processed rows to the combined pile and
store them in the per-file map, or skip the file. -/
def loadStep (acc : List LRow × List (String × List LRow)) (f : InFile) :
    List LRow × List (String × List LRow) :=
  match processFile f with
  | some rows => (acc.1 ++ rows, dictInsert acc.2 (get_standardized_name f.name) rows)
  | none => acc

/-- The Loader's loop over the selected files. -/
def loadFiles (files : List InFile) : List LRow × List (String × List LRow) :=
  files.foldl loadStep ([], [])

/-- Filename selection of one pile: the glob `'*<keyword>*.xlsx'` (modelled
case-insensitively, matching the Windows deployment) followed by the
keyword double-check on the lowered basename. -/
def globMatchXlsx (kw : String) (nm : String) : Bool :=
  hasSub kw.data (lowerStr nm).data &&
    endsWithChars (".xlsx").data (lowerStr nm).data

def selectPile (kw : String) (listing : List InFile) : List InFile :=
  (listing.filter fun f => globMatchXlsx kw f.name).filter
    fun f => hasSub kw.data (lowerStr f.name).data

/-- Embedding of `load_pile` over a directory listing. -/
def load_pile (kw : String) (listing : List InFile) :
    List LRow × List (String × List LRow) :=
  loadFiles (selectPile kw listing)

theorem foldl_loadStep_fst (files : List InFile)
    (acc : List LRow × List (String × List LRow)) :
    (files.foldl loadStep acc).1 = acc.1 ++ (files.filterMap processFile).flatten := by
  induction files generalizing acc with
  | nil => simp
  | cons f fs ih =>
    rw [List.foldl_cons, ih]
    cases hp : processFile f <;>
      simp [loadStep, hp, List.filterMap_cons, List.append_assoc]

theorem loadFiles_fst (files : List InFile) :
    (loadFiles files).1 = (files.filterMap processFile).flatten := by
  rw [loadFiles, foldl_loadStep_fst]
  rfl

theorem find?_map_replace (m : List (String × List LRow)) (k : String)
    (v : List LRow) (r : String) (h : k ≠ r) :
    (m.map fun e => if e.1 == k then (k, v) else e).find? (fun e => e.1 == r) =
      m.find? (fun e => e.1 == r) := by
  induction m with
  | nil => rfl
  | cons e m ih =>
    rw [List.map_cons]
    by_cases he : e.1 = k
    · rw [show (if e.1 == k then (k, v) else e) = (k, v) from by simp [he]]
      rw [List.find?_cons_of_neg _ (by simp [h]),
        List.find?_cons_of_neg _ (by simp [he, h])]
      exact ih
    · rw [show (if e.1 == k then (k, v) else e) = e from by simp [he]]
      rw [List.find?_cons, List.find?_cons]
      cases hc : (e.1 == r) with
      | false => exact ih
      | true => rfl

theorem dictInsert_lookup_other (m : List (String × List LRow)) (k : String)
    (v : List LRow) (r : String) (h : k ≠ r) :
    dictLookup (dictInsert m k v) r = dictLookup m r := by
  unfold dictInsert dictLookup
  split
  · rw [find?_map_replace m k v r h]
  · clear * - h
    induction m with
    | nil =>
      rw [List.nil_append, List.find?_cons_of_neg _ (by simp [h]), List.find?_nil]
    | cons e m ih =>
      rw [List.cons_append, List.find?_cons, List.find?_cons]
      cases hc : (e.1 == r) with
      | false => exact ih
      | true => rfl

theorem dictInsert_lookup_same (m : List (String × List LRow)) (k : String)
    (v : List LRow) :
    dictLookup (dictInsert m k v) k = some v := by
  unfold dictInsert dictLookup
  split
  · rename_i hany
    induction m with
    | nil => exact absurd hany (by simp)
    | cons e m ih =>
      rw [List.map_cons]
      by_cases he : e.1 = k
      · rw [show (if e.1 == k then (k, v) else e) = (k, v) from by simp [he]]
        rw [List.find?_cons_of_pos _ (by simp)]
        rfl
      · rw [show (if e.1 == k then (k, v) else e) = e from by simp [he]]
        rw [List.find?_cons_of_neg _ (by simp [he])]
        rw [List.any_cons, Bool.or_eq_true] at hany
        rcases hany with hany | hany
        · exact absurd hany (by simp [he])
        · exact ih hany
  · rename_i hany
    rw [Bool.not_eq_true] at hany
    induction m with
    | nil =>
      rw [List.nil_append, List.find?_cons_of_pos _ (by simp)]
      rfl
    | cons e m ih =>
      rw [List.any_cons, Bool.or_eq_false_iff] at hany
      rw [List.cons_append, List.find?_cons_of_neg _ (by simp [hany.1])]
      exact ih hany.2

theorem dictInsert_keys_nodup (m : List (String × List LRow)) (k : String)
    (v : List LRow) (h : (m.map Prod.fst).Nodup) :
    ((dictInsert m k v).map Prod.fst).Nodup := by
  unfold dictInsert
  split
  · have heq : (m.map fun e => if e.1 == k then (k, v) else e).map Prod.fst =
        m.map Prod.fst := by
      rw [List.map_map]
      refine List.map_congr_left fun e _ => ?_
      by_cases he : e.1 = k <;> simp [he]
    rw [heq]
    exact h
  · rename_i hany
    rw [Bool.not_eq_true] at hany
    rw [List.map_append, List.nodup_append]
    refine ⟨h, by simp, ?_⟩
    intro x hx
    simp only [List.map_cons, List.map_nil, List.mem_singleton]
    intro hxk
    subst hxk
    obtain ⟨e, he, hek⟩ := List.mem_map.mp hx
    rw [List.any_eq_false] at hany
    exact absurd (by simp [hek] : (e.1 == x) = true) (by simpa using hany e he)

theorem dict_mem_eq_lookup (m : List (String × List LRow)) (k : String)
    (v : List LRow) (hN : (m.map Prod.fst).Nodup) (hm : (k, v) ∈ m) :
    dictLookup m k = some v := by
  induction m with
  | nil => exact absurd hm (by simp)
  | cons e m ih =>
    rcases List.mem_cons.mp hm with rfl | hm'
    · rw [dictLookup, List.find?_cons_of_pos _ (by simp)]
      rfl
    · have hk : k ∈ m.map Prod.fst := List.mem_map.mpr ⟨(k, v), hm', rfl⟩
      have hek : ¬(e.1 == k) = true := by
        intro hek
        rw [beq_iff_eq] at hek
        exact (List.nodup_cons.mp hN).1 (hek ▸ hk)
      rw [dictLookup, @List.find?_cons_of_neg _ (fun e => e.1 == k) e m hek]
      exact ih (List.nodup_cons.mp hN).2 hm'

theorem foldl_loadStep_keys_nodup (files : List InFile)
    (acc : List LRow × List (String × List LRow))
    (h : (acc.2.map Prod.fst).Nodup) :
    ((files.foldl loadStep acc).2.map Prod.fst).Nodup := by
  induction files generalizing acc with
  | nil => exact h
  | cons f fs ih =>
    rw [List.foldl_cons]
    cases hp : processFile f with
    | none =>
      rw [show loadStep acc f = acc from by simp [loadStep, hp]]
      exact ih acc h
    | some rows =>
      rw [show loadStep acc f =
        (acc.1 ++ rows, dictInsert acc.2 (get_standardized_name f.name) rows) from
        by simp [loadStep, hp]]
      exact ih _ (dictInsert_keys_nodup _ _ _ h)

theorem foldl_loadStep_lookup_pres (files : List InFile)
    (acc : List LRow × List (String × List LRow)) (r : String)
    (h3 : ∀ h ∈ files, get_standardized_name h.name ≠ r ∨ processFile h = none) :
    dictLookup (files.foldl loadStep acc).2 r = dictLookup acc.2 r := by
  induction files generalizing acc with
  | nil => rfl
  | cons a as ih =>
    rw [List.foldl_cons]
    have htail : ∀ h ∈ as, get_standardized_name h.name ≠ r ∨ processFile h = none :=
      fun h hh => h3 h (by simp [hh])
    cases hp : processFile a with
    | none =>
      rw [show loadStep acc a = acc from by simp [loadStep, hp]]
      exact ih acc htail
    | some rows =>
      rcases h3 a (by simp) with hne | hskip
      · rw [show loadStep acc a =
          (acc.1 ++ rows, dictInsert acc.2 (get_standardized_name a.name) rows) from
          by simp [loadStep, hp]]
        rw [ih _ htail]
        exact dictInsert_lookup_other _ _ _ _ hne
      · rw [hskip] at hp
        exact absurd hp (by simp)

/-- C9: the per-file map is keyed by standardized source_ref, so when two
loaded files standardize to the same reference and no later processable
file shares it, the map holds exactly the later file's table under that key
(the duplicate checks and per-file quality checks, which consume this map,
therefore see only the last such file), while the combined pile is the
concatenation of every processed file's rows — both files' rows included. -/
theorem c9_later_file_replaces_map_entry (l1 l2 l3 : List InFile) (f g : InFile)
    (r : String) (frows grows : List LRow)
    (_hfr : get_standardized_name f.name = r)
    (hgr : get_standardized_name g.name = r)
    (hfp : processFile f = some frows)
    (hgp : processFile g = some grows)
    (h3 : ∀ h ∈ l3, get_standardized_name h.name ≠ r ∨ processFile h = none) :
    dictLookup (loadFiles (l1 ++ f :: l2 ++ g :: l3)).2 r = some grows ∧
    (∀ rows, (r, rows) ∈ (loadFiles (l1 ++ f :: l2 ++ g :: l3)).2 →
      rows = grows) ∧
    (loadFiles (l1 ++ f :: l2 ++ g :: l3)).1 =
      ((l1 ++ f :: l2 ++ g :: l3).filterMap processFile).flatten ∧
    frows <:+: (loadFiles (l1 ++ f :: l2 ++ g :: l3)).1 ∧
    grows <:+: (loadFiles (l1 ++ f :: l2 ++ g :: l3)).1 := by
  have hassoc : l1 ++ f :: l2 ++ g :: l3 = (l1 ++ f :: l2) ++ g :: l3 := by
    simp
  have hfold : loadFiles (l1 ++ f :: l2 ++ g :: l3) =
      l3.foldl loadStep (loadStep ((l1 ++ f :: l2).foldl loadStep ([], [])) g) := by
    rw [loadFiles, hassoc, List.foldl_append, List.foldl_cons]
  have hstep : loadStep ((l1 ++ f :: l2).foldl loadStep ([], [])) g =
      (((l1 ++ f :: l2).foldl loadStep ([], [])).1 ++ grows,
        dictInsert ((l1 ++ f :: l2).foldl loadStep ([], [])).2 r grows) := by
    simp [loadStep, hgp, hgr]
  have hlookup : dictLookup (loadFiles (l1 ++ f :: l2 ++ g :: l3)).2 r =
      some grows := by
    rw [hfold, foldl_loadStep_lookup_pres _ _ _ h3, hstep]
    exact dictInsert_lookup_same _ _ _
  have hmemf : frows ∈ (l1 ++ f :: l2 ++ g :: l3).filterMap processFile :=
    List.mem_filterMap.mpr ⟨f, by simp, hfp⟩
  have hmemg : grows ∈ (l1 ++ f :: l2 ++ g :: l3).filterMap processFile :=
    List.mem_filterMap.mpr ⟨g, by simp, hgp⟩
  refine ⟨hlookup, ?_, loadFiles_fst _, ?_, ?_⟩
  · intro rows hmem
    have hN : ((loadFiles (l1 ++ f :: l2 ++ g :: l3)).2.map Prod.fst).Nodup := by
      rw [loadFiles]
      exact foldl_loadStep_keys_nodup _ _ (by simp)
    have h1 := dict_mem_eq_lookup _ r rows hN hmem
    rw [hlookup] at h1
    exact (Option.some.inj h1).symm
  · rw [loadFiles_fst]
    exact List.infix_of_mem_flatten hmemf
  · rw [loadFiles_fst]
    exact List.infix_of_mem_flatten hmemg

set_option maxHeartbeats 1000000 in
theorem c9_later_file_replaces_map_entry_witness :
    dictLookup (loadFiles
        [⟨"m2d-recu 1.1.1.xlsx", true, true, true, true, [⟨"C1", "OP1", "10", "no"⟩]⟩,
          ⟨"M2D-RECU-1.1.1 v2.xlsx", true, true, true, true,
            [⟨"C2", "OP2", "20", "si"⟩]⟩]).2 "M2D-RECU 1.1.1" =
      some [⟨"C2", "OP2", "M2D-RECU 1.1.1", "SI", some 20⟩] ∧
    [⟨"C1", "OP1", "M2D-RECU 1.1.1", "NO", some 10⟩] <:+:
      (loadFiles
        [⟨"m2d-recu 1.1.1.xlsx", true, true, true, true, [⟨"C1", "OP1", "10", "no"⟩]⟩,
          ⟨"M2D-RECU-1.1.1 v2.xlsx", true, true, true, true,
            [⟨"C2", "OP2", "20", "si"⟩]⟩]).1 := by
  have h := c9_later_file_replaces_map_entry [] [] []
    ⟨"m2d-recu 1.1.1.xlsx", true, true, true, true, [⟨"C1", "OP1", "10", "no"⟩]⟩
    ⟨"M2D-RECU-1.1.1 v2.xlsx", true, true, true, true, [⟨"C2", "OP2", "20", "si"⟩]⟩
    "M2D-RECU 1.1.1"
    [⟨"C1", "OP1", "M2D-RECU 1.1.1", "NO", some 10⟩]
    [⟨"C2", "OP2", "M2D-RECU 1.1.1", "SI", some 20⟩]
    (by decide) (by decide) (by decide) (by decide) (by simp)
  exact ⟨h.1, h.2.2.2.1⟩

/-- C10: a filename containing both role keywords passes both piles'
filters, its rows are loaded into both the debt and the credit pile, and in
both it is tagged `M2D-RECU` because that keyword is tested first by the
standardization. -/
theorem c10_dual_keyword_file (listing : List InFile) (f : InFile)
    (rows : List LRow)
    (hmem : f ∈ listing)
    (h2 : ("m2d-recu").data <:+: (lowerStr f.name).data)
    (h6 : ("m6d-dev").data <:+: (lowerStr f.name).data)
    (hx : endsWithChars (".xlsx").data (lowerStr f.name).data = true)
    (hp : processFile f = some rows) :
    f ∈ selectPile "m2d-recu" listing ∧
    f ∈ selectPile "m6d-dev" listing ∧
    rows <:+: (load_pile "m2d-recu" listing).1 ∧
    rows <:+: (load_pile "m6d-dev" listing).1 ∧
    get_standardized_name f.name = "M2D-RECU " ++ dateStrOf (lowerStr f.name) ∧
    ∀ lr ∈ rows, lr.ref = "M2D-RECU " ++ dateStrOf (lowerStr f.name) := by
  have hsel : ∀ kw : String, kw.data <:+: (lowerStr f.name).data →
      f ∈ selectPile kw listing := by
    intro kw hkw
    rw [selectPile, List.mem_filter, List.mem_filter]
    have hs : hasSub kw.data (lowerStr f.name).data = true := (hasSub_iff _ _).mpr hkw
    refine ⟨⟨hmem, ?_⟩, hs⟩
    rw [globMatchXlsx, hs, hx]
    rfl
  have hstd : get_standardized_name f.name =
      "M2D-RECU " ++ dateStrOf (lowerStr f.name) := by
    unfold get_standardized_name
    dsimp only
    rw [if_pos ((hasSub_iff _ _).mpr h2)]
  have hload : ∀ kw, f ∈ selectPile kw listing →
      rows <:+: (load_pile kw listing).1 := by
    intro kw hf
    rw [load_pile, loadFiles_fst]
    exact List.infix_of_mem_flatten (List.mem_filterMap.mpr ⟨f, hf, hp⟩)
  have hrows : ∀ lr ∈ rows, lr.ref = get_standardized_name f.name := by
    intro lr hlr
    rw [processFile] at hp
    split at hp
    · obtain rfl := Option.some.inj hp
      obtain ⟨x, _, rfl⟩ := List.mem_map.mp hlr
      rfl
    · exact absurd hp (by simp)
  exact ⟨hsel _ h2, hsel _ h6, hload _ (hsel _ h2), hload _ (hsel _ h6), hstd,
    fun lr hlr => (hrows lr hlr).trans hstd⟩

set_option maxHeartbeats 1000000 in
theorem c10_dual_keyword_file_witness :
    (⟨"m2d-recu m6d-dev 1.1.1.xlsx", true, true, true, true,
        [⟨"C1", "OP1", "10", "no"⟩]⟩ : InFile) ∈
      selectPile "m2d-recu"
        [⟨"m2d-recu m6d-dev 1.1.1.xlsx", true, true, true, true,
          [⟨"C1", "OP1", "10", "no"⟩]⟩] ∧
    (⟨"m2d-recu m6d-dev 1.1.1.xlsx", true, true, true, true,
        [⟨"C1", "OP1", "10", "no"⟩]⟩ : InFile) ∈
      selectPile "m6d-dev"
        [⟨"m2d-recu m6d-dev 1.1.1.xlsx", true, true, true, true,
          [⟨"C1", "OP1", "10", "no"⟩]⟩] ∧
    get_standardized_name "m2d-recu m6d-dev 1.1.1.xlsx" =
      "M2D-RECU " ++ dateStrOf (lowerStr "m2d-recu m6d-dev 1.1.1.xlsx") ∧
    [⟨"C1", "OP1", get_standardized_name "m2d-recu m6d-dev 1.1.1.xlsx", "NO",
        some 10⟩] <:+:
      (load_pile "m2d-recu"
        [⟨"m2d-recu m6d-dev 1.1.1.xlsx", true, true, true, true,
          [⟨"C1", "OP1", "10", "no"⟩]⟩]).1 := by
  have h := c10_dual_keyword_file
    [⟨"m2d-recu m6d-dev 1.1.1.xlsx", true, true, true, true,
      [⟨"C1", "OP1", "10", "no"⟩]⟩]
    ⟨"m2d-recu m6d-dev 1.1.1.xlsx", true, true, true, true,
      [⟨"C1", "OP1", "10", "no"⟩]⟩
    [⟨"C1", "OP1", get_standardized_name "m2d-recu m6d-dev 1.1.1.xlsx", "NO",
      some 10⟩]
    (by simp) (by decide) (by decide) (by decide) (by decide)
  exact ⟨h.1, h.2.1, h.2.2.2.2.1, h.2.2.1⟩

end SumConcil
